import Mathlib

/-!
Shallow embedding of the shared-notes service (FastAPI + SQLAlchemy + Redis)
restricted to the parts the specification talks about: the note / share / tag
data model, the note endpoints in `app/api/v1/endpoints/notes.py`, and the
token cache logic in `app/api/v1/endpoints/auth.py`.

The database session is modelled as an explicit record of tables (lists of
rows); each endpoint handler becomes a pure function from the request
arguments and the pre-state to a result (`Except Err _` mirroring
`HTTPException` raises) together with the post-state.  A raise before
`db.commit()` leaves the stored state unchanged, so error branches return the
pre-state.
-/

namespace SharedNotes

/-- Row of the `users` table (`app/models/user.py`). -/
structure User where
  id : Nat
  username : String
  is_active : Bool
deriving Repr, DecidableEq

/-- Row of the `notes` table (`app/models/note.py`): `title` is required,
`content` nullable, `owner_id` a required foreign key. -/
structure Note where
  id : Nat
  title : String
  content : Option String
  owner_id : Nat
deriving Repr, DecidableEq

/-- Row of the `note_shares` table (`app/models/note_share.py`): the
`permission` column has database default `"read"` (comment: read, write,
admin). -/
structure NoteShare where
  id : Nat
  note_id : Nat
  user_id : Nat
  permission : String
deriving Repr, DecidableEq

/-- Row of the `tags` table (`app/models/tag.py`): unique indexed `name`. -/
structure Tag where
  id : Nat
  name : String
deriving Repr, DecidableEq

/-- The relational state: one list of rows per table.  `note_tags` is the
many-to-many association table of `app/models/note_tag.py`, a pair
(note_id, tag_id).  `nextId` models the autoincrement primary-key source. -/
structure DB where
  users : List User
  notes : List Note
  shares : List NoteShare
  tags : List Tag
  note_tags : List (Nat × Nat)
  nextId : Nat
deriving Repr, DecidableEq

/-- The error outcomes the handlers raise (`HTTPException` status codes):
404 not found, 403 forbidden, 401 unauthorized, 400 bad request. -/
inductive Err where
  | notFound
  | forbidden
  | unauthorized
  | badRequest
deriving Repr, DecidableEq

/-- Body of `PUT /notes/{id}` (`app/schemas/note.py`, `NoteUpdate`): every
field optional; `none` means the field was not sent (pydantic
`exclude_unset`).  For `content` the inner option is the nullable column
value. -/
structure NoteUpdate where
  title : Option String
  content : Option (Option String)
  tags : Option (List String)
deriving Repr, DecidableEq

/-- The response schema `NoteResponse` (`app/schemas/note.py`), with tags
rendered as names and `shared_with` the usernames holding a share
(excluding the owner). -/
structure NoteResponse where
  id : Nat
  title : String
  content : Option String
  tags : List String
  owner_id : Nat
  owner_username : Option String
  shared_with : List String
deriving Repr, DecidableEq

/-! ### Tag resolution (`get_or_create_tags`, notes.py lines 20-43) -/

/-- Python whitespace for `str.strip()`. -/
def isSpaceChar (c : Char) : Bool :=
  c == ' ' || c == '\t' || c == '\n' || c == '\r'

/-- ASCII lowercasing of one character (`str.lower()`). -/
def lowerChar (c : Char) : Char :=
  if 65 ≤ c.toNat ∧ c.toNat ≤ 90 then Char.ofNat (c.toNat + 32) else c

/-- `str.strip()` on the character list. -/
def trimChars (l : List Char) : List Char :=
  ((l.dropWhile isSpaceChar).reverse.dropWhile isSpaceChar).reverse

/-- `str.strip()`. -/
def trimStr (s : String) : String := String.mk (trimChars s.data)

/-- `str.lower()` (ASCII). -/
def lowerStr (s : String) : String := String.mk (s.data.map lowerChar)

/-- `tag_name.strip().lower()` of the source. -/
def normalizeTag (s : String) : String := lowerStr (trimStr s)

/-- `get_or_create_tags`: for each input name, normalize; skip names that
are empty after trimming; look the normalized name up in the `tags` table
and reuse the row, otherwise insert a fresh row.  Returns the resolved tag
rows in input order together with the updated state. -/
def get_or_create_tags : List String → DB → List Tag × DB
  | [], db => ([], db)
  | tag_name :: rest, db =>
      let tn := normalizeTag tag_name
      if tn = "" then get_or_create_tags rest db
      else
        match db.tags.find? (fun t => t.name == tn) with
        | some tag =>
            let r := get_or_create_tags rest db
            (tag :: r.1, r.2)
        | none =>
            let tag : Tag := { id := db.nextId, name := tn }
            let db1 : DB := { db with tags := db.tags ++ [tag], nextId := db.nextId + 1 }
            let r := get_or_create_tags rest db1
            (tag :: r.1, r.2)

/-- `tags_to_names` (notes.py lines 46-52). -/
def tags_to_names (tags : List Tag) : List String := tags.map (fun t => t.name)

/-! ### Response assembly helpers -/

/-- `get_shared_with_usernames` (notes.py lines 55-65): usernames joined
through `note_shares` on the given note, excluding the owner's user id. -/
def get_shared_with_usernames (note_id owner_id : Nat) (db : DB) : List String :=
  (db.shares.filter (fun s => s.note_id == note_id)).filterMap
    (fun s =>
      match db.users.find? (fun u => u.id == s.user_id) with
      | some u => if u.id == owner_id then none else some u.username
      | none => none)

/-- The tag names attached to a note through the `note_tags` association. -/
def note_tag_names (note_id : Nat) (db : DB) : List String :=
  (db.note_tags.filter (fun p => p.1 == note_id)).filterMap
    (fun p => (db.tags.find? (fun t => t.id == p.2)).map (fun t => t.name))

/-- `note.owner.username if note.owner else None`. -/
def owner_username_of (n : Note) (db : DB) : Option String :=
  (db.users.find? (fun u => u.id == n.owner_id)).map (fun u => u.username)

/-- The `NoteResponse` the handlers build for a note row. -/
def mkNoteResponse (n : Note) (db : DB) : NoteResponse :=
  { id := n.id
  , title := n.title
  , content := n.content
  , tags := note_tag_names n.id db
  , owner_id := n.owner_id
  , owner_username := owner_username_of n db
  , shared_with := get_shared_with_usernames n.id n.owner_id db }

/-! ### Search and tag filters (shared by the list endpoints) -/

/-- SQL `ilike "%pat%"`: case-insensitive substring containment. -/
def strContainsCI (hay pat : String) : Bool :=
  let h := (lowerStr hay).data
  let p := (lowerStr pat).data
  (List.range (h.length + 1)).any (fun i => p.isPrefixOf (h.drop i))

/-- The `or_(Note.title.ilike(...), Note.content.ilike(...))` filter; a NULL
content never matches. -/
def matchesSearch (search : String) (n : Note) : Bool :=
  strContainsCI n.title search ||
    (match n.content with
     | some c => strContainsCI c search
     | none => false)

/-- `[tag.strip().lower() for tag in tags.split(",") if tag.strip()]`. -/
def parseTagFilter (tags : String) : List String :=
  ((tags.split (fun c => c == ',')).filter (fun t => trimStr t ≠ "")).map
    (fun t => normalizeTag t)

/-- Whether a note carries at least one tag whose name is in the filter list
(the `.join(Note.tags).where(Tag.name.in_(tag_names))` join). -/
def noteHasTagIn (names : List String) (note_id : Nat) (db : DB) : Bool :=
  db.note_tags.any (fun p => p.1 == note_id &&
    db.tags.any (fun t => t.id == p.2 && names.contains t.name))

/-- Apply the optional text-search and tag filters the way the handlers do:
a filter is applied only when the query parameter is present and truthy. -/
def applyFilters (search tagFilter : Option String) (db : DB) (q : List Note) : List Note :=
  let q1 := match search with
    | some s => if s = "" then q else q.filter (matchesSearch s)
    | none => q
  match tagFilter with
  | some ts =>
      if ts = "" then q1
      else
        let names := parseTagFilter ts
        if names.isEmpty then q1 else q1.filter (fun n => noteHasTagIn names n.id db)
  | none => q1

/-- Deduplicate notes by id keeping the first occurrence, as the Python
`{note.id: note for note in all_notes}` dictionary does for identical rows. -/
def dedupByIdAux (seen : List Nat) : List Note → List Note
  | [] => []
  | n :: rest =>
      if n.id ∈ seen then dedupByIdAux seen rest
      else n :: dedupByIdAux (n.id :: seen) rest

def dedupById (l : List Note) : List Note := dedupByIdAux [] l

/-! ### Note endpoints (`app/api/v1/endpoints/notes.py`) -/

/-- `POST /notes/` (`create_note`, lines 68-112): resolve tags, insert the
note owned by the caller, associate the tags; the response is built with
`shared_with = []`. -/
def create_note (title : String) (content : Option String) (tagNames : List String)
    (current_user : User) (db : DB) : Except Err NoteResponse × DB :=
  let r := get_or_create_tags tagNames db
  let tag_objects := r.1
  let db1 := r.2
  let note : Note := { id := db1.nextId, title := title, content := content
                     , owner_id := current_user.id }
  let db2 : DB := { db1 with
      notes := db1.notes ++ [note]
    , note_tags := db1.note_tags ++ tag_objects.map (fun t => (note.id, t.id))
    , nextId := db1.nextId + 1 }
  (Except.ok
    { id := note.id, title := note.title, content := note.content
    , tags := tags_to_names tag_objects, owner_id := note.owner_id
    , owner_username := some current_user.username, shared_with := []
    }, db2)

/-- `GET /notes/` (`get_notes`, lines 115-202): the union of the caller's own
notes and the notes shared with the caller, each filtered and paginated
separately, then deduplicated by id.  The handler cannot fail. -/
def get_notes (skip limit : Nat) (search tagFilter : Option String)
    (current_user : User) (db : DB) : List NoteResponse × DB :=
  let own := applyFilters search tagFilter db
    (db.notes.filter (fun n => n.owner_id == current_user.id))
  let shared := applyFilters search tagFilter db
    (db.notes.filter (fun n =>
      db.shares.any (fun s => s.note_id == n.id && s.user_id == current_user.id)))
  let own1 := (own.drop skip).take limit
  let shared1 := (shared.drop skip).take limit
  let uniq := dedupById (own1 ++ shared1)
  (uniq.map (fun n => mkNoteResponse n db), db)

/-- `GET /notes/{note_id}` (`get_note`, lines 370-430): first query the note
as owned by the caller, then as shared with the caller, else 404. -/
def get_note (note_id : Nat) (current_user : User) (db : DB) :
    Except Err NoteResponse × DB :=
  match db.notes.find? (fun n => n.id == note_id && n.owner_id == current_user.id) with
  | some note => (Except.ok (mkNoteResponse note db), db)
  | none =>
    match db.notes.find? (fun n => n.id == note_id &&
        db.shares.any (fun s => s.note_id == n.id && s.user_id == current_user.id)) with
    | some note => (Except.ok (mkNoteResponse note db), db)
    | none => (Except.error Err.notFound, db)

/-- `PUT /notes/{note_id}` (`update_note`, lines 433-485): only the owner may
update; a non-owner (or missing note) gets 403.  When `tags` is sent the
associations are replaced by the resolved tags; sent scalar fields are
overwritten. -/
def update_note (note_id : Nat) (note_update : NoteUpdate) (current_user : User)
    (db : DB) : Except Err NoteResponse × DB :=
  match db.notes.find? (fun n => n.id == note_id && n.owner_id == current_user.id) with
  | none => (Except.error Err.forbidden, db)
  | some note =>
    let step : DB :=
      match note_update.tags with
      | some tnames =>
          let r := get_or_create_tags tnames db
          let db1 := r.2
          { db1 with note_tags :=
              (db1.note_tags.filter (fun p => p.1 != note.id)) ++
                r.1.map (fun t => (note.id, t.id)) }
      | none => db
    let note1 := match note_update.title with
      | some t => { note with title := t }
      | none => note
    let note2 := match note_update.content with
      | some c => { note1 with content := c }
      | none => note1
    let db2 : DB := { step with
      notes := step.notes.map (fun m => if m.id == note.id then note2 else m) }
    (Except.ok (mkNoteResponse note2 db2), db2)

/-- `DELETE /notes/{note_id}` (`delete_note`, lines 488-509): only the owner;
a missing or non-owned note gets 404.  Deleting cascades to the note's
share rows (relationship `cascade="all, delete-orphan"`) and to its
`note_tags` association rows (FK `ondelete="CASCADE"`); tag rows stay. -/
def delete_note (note_id : Nat) (current_user : User) (db : DB) :
    Except Err String × DB :=
  match db.notes.find? (fun n => n.id == note_id && n.owner_id == current_user.id) with
  | none => (Except.error Err.notFound, db)
  | some note =>
      (Except.ok "Nota eliminata con successo",
       { db with
           notes := db.notes.filter (fun m => m.id != note.id)
         , shares := db.shares.filter (fun s => s.note_id != note.id)
         , note_tags := db.note_tags.filter (fun p => p.1 != note.id) })

/-- `POST /notes/{note_id}/share` (`share_note`, lines 512-563): only the
owner; the target user must exist; when the (note, user) pair already has a
share row nothing is changed and a success message is returned; otherwise a
new row is inserted with the column default permission `"read"` (the
endpoint takes no permission argument). -/
def share_note (note_id user_id : Nat) (current_user : User) (db : DB) :
    Except Err String × DB :=
  match db.notes.find? (fun n => n.id == note_id && n.owner_id == current_user.id) with
  | none => (Except.error Err.notFound, db)
  | some _ =>
    match db.users.find? (fun u => u.id == user_id) with
    | none => (Except.error Err.notFound, db)
    | some _ =>
      match db.shares.find? (fun s => s.note_id == note_id && s.user_id == user_id) with
      | some _ => (Except.ok "Nota gia condivisa con utente", db)
      | none =>
          let share : NoteShare :=
            { id := db.nextId, note_id := note_id, user_id := user_id
            , permission := "read" }
          (Except.ok "Nota condivisa con utente",
           { db with shares := db.shares ++ [share], nextId := db.nextId + 1 })

/-- `DELETE /notes/{note_id}/share/{user_id}` (`unshare_note`, lines
566-603): only the owner; 404 when the note is not owned or no share row
exists for the pair; otherwise that row is deleted. -/
def unshare_note (note_id user_id : Nat) (current_user : User) (db : DB) :
    Except Err String × DB :=
  match db.notes.find? (fun n => n.id == note_id && n.owner_id == current_user.id) with
  | none => (Except.error Err.notFound, db)
  | some _ =>
    match db.shares.find? (fun s => s.note_id == note_id && s.user_id == user_id) with
    | none => (Except.error Err.notFound, db)
    | some share =>
        (Except.ok "Condivisione rimossa",
         { db with shares := db.shares.filter (fun s => s.id != share.id) })

/-! ### Token cache and auth endpoints (`app/api/v1/endpoints/auth.py`) -/

/-- Modelled from the spec: tokens are issued by `app/core/security.py`,
which is not under `src/`.  Per the spec (section 4.3) a token is bound to a
username claim (`sub`) and has a type, access or refresh. -/
structure Token where
  sub : String
  kind : String
deriving Repr, DecidableEq

/-- The Redis keys the auth endpoints use: `access_token:{user.id}` and
`refresh_token:{user.id}`. -/
inductive RKey where
  | access (uid : Nat)
  | refresh (uid : Nat)
deriving Repr, DecidableEq

/-- The Redis token cache as a key-value association list. -/
abbrev Redis := List (RKey × Token)

/-- `redis_client.setex(key, ttl, value)` (expiry not modelled). -/
def redisSetex (k : RKey) (v : Token) (r : Redis) : Redis :=
  (k, v) :: r.filter (fun p => p.1 != k)

/-- `redis_client.get(key)`. -/
def redisGet (k : RKey) (r : Redis) : Option Token :=
  (r.find? (fun p => p.1 == k)).map (fun p => p.2)

/-- `redis_client.delete(key)`. -/
def redisDel (k : RKey) (r : Redis) : Redis :=
  r.filter (fun p => p.1 != k)

/-- Modelled from the spec: `create_access_token` of `app/core/security.py`
(not under `src/`) issues a token bound to the username claim. -/
def create_access_token (username : String) : Token :=
  { sub := username, kind := "access" }

/-- Modelled from the spec: `create_refresh_token` of `app/core/security.py`
(not under `src/`). -/
def create_refresh_token (username : String) : Token :=
  { sub := username, kind := "refresh" }

/-- Modelled from the spec: `verify_token(token, token_type)` of
`app/core/security.py` (not under `src/`) validates the token and its type
and yields the username claim; a failure is an authentication (401) error. -/
def verify_token (token : Token) (token_type : String) : Except Err String :=
  if token.kind == token_type then Except.ok token.sub
  else Except.error Err.unauthorized

/-- `POST /auth/login` (auth.py lines 50-96), token part: issue both tokens
and mirror them into the cache under the user's id. -/
def login_tokens (user : User) (r : Redis) : (Token × Token) × Redis :=
  let tokA := create_access_token user.username
  let tokR := create_refresh_token user.username
  ((tokA, tokR),
   redisSetex (RKey.refresh user.id) tokR (redisSetex (RKey.access user.id) tokA r))

/-- `POST /auth/refresh` (auth.py lines 98-142): verify the presented
refresh token, look the user up by the username claim, require the cached
refresh token to exist and to equal the presented one exactly, then issue
and cache a new access token. -/
def refresh_token (presented : Token) (users : List User) (r : Redis) :
    Except Err (Token × Token) × Redis :=
  match verify_token presented "refresh" with
  | Except.error e => (Except.error e, r)
  | Except.ok username =>
    match users.find? (fun u => u.username == username) with
    | none => (Except.error Err.unauthorized, r)
    | some user =>
      match redisGet (RKey.refresh user.id) r with
      | none => (Except.error Err.unauthorized, r)
      | some stored =>
        if stored != presented then (Except.error Err.unauthorized, r)
        else
          let tokA := create_access_token user.username
          (Except.ok (tokA, presented), redisSetex (RKey.access user.id) tokA r)

/-- `POST /auth/logout` (auth.py lines 145-152): delete both cached tokens
of the current user. -/
def logout (current_user : User) (r : Redis) : Redis :=
  redisDel (RKey.refresh current_user.id) (redisDel (RKey.access current_user.id) r)

/-! ### The spec's Access Control Resolver and the state invariants -/

/-- The ordered permission tiers of the spec glossary:
none < read < write < admin < owner. -/
inductive Perm where
  | none
  | read
  | write
  | admin
  | owner
deriving Repr, DecidableEq

/-- Rank of a permission tier in the spec's order. -/
def Perm.rank : Perm → Nat
  | .none => 0
  | .read => 1
  | .write => 2
  | .admin => 3
  | .owner => 4

/-- Decode the `permission` column values (read, write, admin). -/
def permOfString (s : String) : Perm :=
  if s = "read" then Perm.read
  else if s = "write" then Perm.write
  else if s = "admin" then Perm.admin
  else Perm.none

/-- The Access Control Resolver exactly as the spec states it (section 4.1).
The code has no such function — it implements its access checks inline in
each handler — so this definition follows the spec's words, for comparison
with the handlers: ownership first, then the stored share permission, else
none (this revision has no public-visibility flag, so that step is empty). -/
def resolve_permission (user : User) (note : Note) (db : DB) : Perm :=
  if note.owner_id == user.id then Perm.owner
  else
    match db.shares.find? (fun s => s.note_id == note.id && s.user_id == user.id) with
    | some s => permOfString s.permission
    | none => Perm.none

/-- At most one share row per (note, user) pair. -/
def SharePairUnique (db : DB) : Prop :=
  db.shares.Pairwise (fun a b => ¬(a.note_id = b.note_id ∧ a.user_id = b.user_id))

/-- Primary keys of the `notes` table are unique. -/
def NoteIdsUnique (db : DB) : Prop :=
  (db.notes.map (fun n => n.id)).Nodup

/-- The unique index on `tags.name`. -/
def TagNamesUnique (db : DB) : Prop :=
  (db.tags.map (fun t => t.name)).Nodup

/-- The unique constraint on `users.username`: two rows with equal usernames
are the same row. -/
def UsernamesUnique (db : DB) : Prop :=
  ∀ u ∈ db.users, ∀ v ∈ db.users, u.username = v.username → u.id = v.id

/-- The access set of the spec's invariant (section 3): a user may read a
note iff they own it or a share row for the pair exists. -/
def canRead (U : User) (N : Note) (db : DB) : Prop :=
  N.owner_id = U.id ∨ ∃ s ∈ db.shares, s.note_id = N.id ∧ s.user_id = U.id

instance (U : User) (N : Note) (db : DB) : Decidable (canRead U N db) := by
  unfold canRead; infer_instance

instance (db : DB) : Decidable (NoteIdsUnique db) := by
  unfold NoteIdsUnique; infer_instance

instance (db : DB) : Decidable (SharePairUnique db) := by
  unfold SharePairUnique
  have : DecidableEq NoteShare := inferInstance
  infer_instance

instance (db : DB) : Decidable (TagNamesUnique db) := by
  unfold TagNamesUnique; infer_instance

instance (db : DB) : Decidable (UsernamesUnique db) := by
  unfold UsernamesUnique; infer_instance

/-- Success test for a handler outcome. -/
def exceptOk {α : Type} : Except Err α → Bool
  | Except.ok _ => true
  | Except.error _ => false

/-- The normalized, empty-skipping name list described by the spec. -/
def normalizedNames (names : List String) : List String :=
  names.filterMap
    (fun s => if normalizeTag s = "" then none else some (normalizeTag s))

/-! ### Concrete example states used for closed instantiations -/

def exAlice : User := { id := 1, username := "alice", is_active := true }

def exBob : User := { id := 2, username := "bob", is_active := true }

def exNote10 : Note := { id := 10, title := "t", content := none, owner_id := 1 }

def exNote11 : Note := { id := 11, title := "t2", content := none, owner_id := 1 }

/-- Alice owns note 10, shared read-only with bob. -/
def exDB1 : DB :=
  { users := [exAlice, exBob], notes := [exNote10]
  , shares := [{ id := 100, note_id := 10, user_id := 2, permission := "read" }]
  , tags := [], note_tags := [], nextId := 200 }

/-- Alice owns notes 10 and 11; bob holds a stored `write` share on 10 and
a `read` share on 11 (the `write` value can only predate this revision, the
endpoint itself grants `read` only). -/
def exDBwrite : DB :=
  { users := [exAlice, exBob], notes := [exNote10, exNote11]
  , shares := [{ id := 100, note_id := 10, user_id := 2, permission := "write" }
             , { id := 101, note_id := 11, user_id := 2, permission := "read" }]
  , tags := [], note_tags := [], nextId := 300 }

/-- Alice owns note 10; nothing is shared. -/
def exDBnoshare : DB :=
  { users := [exAlice, exBob], notes := [exNote10]
  , shares := [], tags := [], note_tags := [], nextId := 200 }

/-- An entirely empty state. -/
def emptyDB : DB :=
  { users := [], notes := [], shares := [], tags := [], note_tags := [], nextId := 0 }

/-- Alice's token cache right after login. -/
def exRedis : Redis :=
  [(RKey.access 1, { sub := "alice", kind := "access" })
  , (RKey.refresh 1, { sub := "alice", kind := "refresh" })]

/-! ### Helper lemmas -/

/-- Querying the notes table by primary key plus an extra condition: with
unique ids the query finds the row `N` exactly when `N` satisfies the extra
condition. -/
theorem note_find?_eq (notes : List Note) (N : Note) (q : Note → Bool)
    (hN : N ∈ notes) (huniq : (notes.map (fun n => n.id)).Nodup) :
    notes.find? (fun n => n.id == N.id && q n) = if q N then some N else none := by
  induction notes with
  | nil => cases hN
  | cons m rest ih =>
    rw [List.map_cons, List.nodup_cons] at huniq
    rcases List.mem_cons.mp hN with rfl | hmem
    · cases hq : q N with
      | true =>
        rw [if_pos rfl]
        exact List.find?_cons_of_pos _ (by simp [hq])
      | false =>
        rw [if_neg (by simp)]
        rw [List.find?_cons_of_neg _ (by simp [hq])]
        rw [List.find?_eq_none]
        intro x hx
        simp only [Bool.and_eq_true, beq_iff_eq, not_and]
        intro hid
        exact absurd (hid ▸ List.mem_map_of_mem (fun n => n.id) hx) huniq.1
    · have hne : m.id ≠ N.id := by
        intro h
        exact huniq.1 (h ▸ List.mem_map_of_mem (fun n => n.id) hmem)
      rw [List.find?_cons_of_neg _ (by simp [hne])]
      exact ih hmem huniq.2

/-- Finding a tag by its (unique) name returns the stored row itself. -/
theorem tag_find?_name (tags : List Tag) (t : Tag) (tn : String)
    (ht : t ∈ tags) (hname : t.name = tn)
    (huniq : (tags.map (fun x => x.name)).Nodup) :
    tags.find? (fun x => x.name == tn) = some t := by
  induction tags with
  | nil => cases ht
  | cons m rest ih =>
    rw [List.map_cons, List.nodup_cons] at huniq
    rcases List.mem_cons.mp ht with rfl | hmem
    · exact List.find?_cons_of_pos _ (by simp [hname])
    · have hne : m.name ≠ tn := by
        intro h
        exact huniq.1 ((h.trans hname.symm) ▸ List.mem_map_of_mem (fun x => x.name) hmem)
      rw [List.find?_cons_of_neg _ (by simp [hne])]
      exact ih hmem huniq.2

/-- What tag resolution does to the state: it only appends tag rows whose
names were absent, and advances the id source accordingly. -/
theorem goc_state (names : List String) (db : DB) :
    ∃ new, (get_or_create_tags names db).2 =
        { db with tags := db.tags ++ new, nextId := db.nextId + new.length } ∧
      ∀ t ∈ new, ¬ t.name ∈ db.tags.map (fun x => x.name) := by
  induction names generalizing db with
  | nil =>
    refine ⟨[], ?_, by simp⟩
    simp [get_or_create_tags]
  | cons n rest ih =>
    by_cases hn : normalizeTag n = ""
    · obtain ⟨new, heq, hfresh⟩ := ih db
      exact ⟨new, by simp [get_or_create_tags, hn, heq], hfresh⟩
    · cases hf : db.tags.find? (fun t => t.name == normalizeTag n) with
      | some t =>
        obtain ⟨new, heq, hfresh⟩ := ih db
        exact ⟨new, by simp [get_or_create_tags, hn, hf, heq], hfresh⟩
      | none =>
        set t0 : Tag := { id := db.nextId, name := normalizeTag n } with ht0
        set db1 : DB := { db with tags := db.tags ++ [t0], nextId := db.nextId + 1 } with hdb1
        obtain ⟨new, heq, hfresh⟩ := ih db1
        refine ⟨t0 :: new, ?_, ?_⟩
        · have hstep : (get_or_create_tags (n :: rest) db).2 = (get_or_create_tags rest db1).2 := by
            simp [get_or_create_tags, hn, hf]
          rw [hstep, heq, hdb1]
          simp [List.append_assoc]
          omega
        · intro t htmem
          rcases List.mem_cons.mp htmem with rfl | hmem
          · intro hmem2
            rw [List.find?_eq_none] at hf
            obtain ⟨x, hx, hxname⟩ := List.mem_map.mp hmem2
            exact hf x hx (by simpa [ht0] using hxname)
          · intro hmem2
            refine hfresh t hmem ?_
            rw [hdb1]
            simp only [List.map_append, List.mem_append]
            exact Or.inl hmem2

/-- The names of the resolved tags are exactly the normalized input names
with empty results skipped. -/
theorem goc_names (names : List String) (db : DB) :
    (get_or_create_tags names db).1.map (fun t => t.name) = normalizedNames names := by
  induction names generalizing db with
  | nil => simp [get_or_create_tags, normalizedNames]
  | cons n rest ih =>
    by_cases hn : normalizeTag n = ""
    · simpa [get_or_create_tags, hn, normalizedNames] using ih db
    · cases hf : db.tags.find? (fun t => t.name == normalizeTag n) with
      | some t =>
        have hname : t.name = normalizeTag n := by
          have := List.find?_some hf
          simpa using this
        simpa [get_or_create_tags, hn, hf, normalizedNames, hname] using ih db
      | none =>
        simpa [get_or_create_tags, hn, hf, normalizedNames] using
          ih { db with tags := db.tags ++ [{ id := db.nextId, name := normalizeTag n }],
                       nextId := db.nextId + 1 }

/-- Tag resolution keeps the unique-name index intact. -/
theorem goc_nodup (names : List String) (db : DB) (h : TagNamesUnique db) :
    TagNamesUnique (get_or_create_tags names db).2 := by
  induction names generalizing db with
  | nil => simpa [get_or_create_tags] using h
  | cons n rest ih =>
    by_cases hn : normalizeTag n = ""
    · simpa [get_or_create_tags, hn] using ih db h
    · cases hf : db.tags.find? (fun t => t.name == normalizeTag n) with
      | some t => simpa [get_or_create_tags, hn, hf] using ih db h
      | none =>
        have h1 : TagNamesUnique
            { db with tags := db.tags ++ [{ id := db.nextId, name := normalizeTag n }],
                      nextId := db.nextId + 1 } := by
          unfold TagNamesUnique at h ⊢
          rw [List.map_append, List.nodup_append]
          refine ⟨h, by simp, ?_⟩
          intro x hx
          simp only [List.map_cons, List.map_nil, List.mem_singleton]
          intro hx2
          rw [List.find?_eq_none] at hf
          obtain ⟨y, hy, hyname⟩ := List.mem_map.mp hx
          exact hf y hy (by simp [hyname, hx2])
        simpa [get_or_create_tags, hn, hf] using ih _ h1

/-- Tag resolution is idempotent: running it again on the state it produced
returns the same tag rows and the same state. -/
theorem goc_idem (names : List String) (db : DB) :
    get_or_create_tags names (get_or_create_tags names db).2 =
      get_or_create_tags names db := by
  induction names generalizing db with
  | nil => simp [get_or_create_tags]
  | cons n rest ih =>
    by_cases hn : normalizeTag n = ""
    · simp only [get_or_create_tags, hn, if_pos rfl]
      exact ih db
    · cases hf : db.tags.find? (fun t => t.name == normalizeTag n) with
      | some t =>
        have hL : get_or_create_tags (n :: rest) db =
            (t :: (get_or_create_tags rest db).1, (get_or_create_tags rest db).2) := by
          simp [get_or_create_tags, hn, hf]
        obtain ⟨new, heq, _⟩ := goc_state rest db
        have hf2 : ((get_or_create_tags rest db).2).tags.find?
            (fun x => x.name == normalizeTag n) = some t := by
          rw [heq]
          simp [List.find?_append, hf]
        rw [hL]
        simp only [get_or_create_tags, hn, if_neg hn, hf2]
        rw [ih]
        simp
      | none =>
        set t0 : Tag := { id := db.nextId, name := normalizeTag n } with ht0
        set db1 : DB := { db with tags := db.tags ++ [t0], nextId := db.nextId + 1 } with hdb1
        have hL : get_or_create_tags (n :: rest) db =
            (t0 :: (get_or_create_tags rest db1).1, (get_or_create_tags rest db1).2) := by
          simp [get_or_create_tags, hn, hf, ht0, hdb1]
        obtain ⟨new, heq, _⟩ := goc_state rest db1
        have hf2 : ((get_or_create_tags rest db1).2).tags.find?
            (fun x => x.name == normalizeTag n) = some t0 := by
          rw [heq]
          simp only [hdb1, List.append_assoc, List.find?_append, hf]
          simp [ht0]
        rw [hL]
        simp only [get_or_create_tags, hn, if_neg hn, hf2]
        rw [ih]
        simp

/-- What `share_note` can do to the share table: leave it unchanged, or —
exactly when no row for the pair existed — append one new row with the
default permission. -/
theorem share_note_shares_cases (nid uid : Nat) (cu : User) (db : DB) :
    (share_note nid uid cu db).2.shares = db.shares ∨
      ((share_note nid uid cu db).2.shares =
          db.shares ++ [{ id := db.nextId, note_id := nid, user_id := uid
                        , permission := "read" }] ∧
        db.shares.find? (fun s => s.note_id == nid && s.user_id == uid) = none) := by
  unfold share_note
  cases h1 : db.notes.find? (fun n => n.id == nid && n.owner_id == cu.id) with
  | none => exact Or.inl rfl
  | some note =>
    cases h2 : db.users.find? (fun u => u.id == uid) with
    | none => exact Or.inl rfl
    | some target =>
      cases h3 : db.shares.find? (fun s => s.note_id == nid && s.user_id == uid) with
      | some ex => exact Or.inl rfl
      | none => exact Or.inr ⟨rfl, rfl⟩

/-- `share_note` leaves every table except `shares` (and the id source)
unchanged. -/
theorem share_note_frame (nid uid : Nat) (cu : User) (db : DB) :
    (share_note nid uid cu db).2.users = db.users ∧
    (share_note nid uid cu db).2.notes = db.notes ∧
    (share_note nid uid cu db).2.tags = db.tags ∧
    (share_note nid uid cu db).2.note_tags = db.note_tags := by
  unfold share_note
  cases h1 : db.notes.find? (fun n => n.id == nid && n.owner_id == cu.id) with
  | none => exact ⟨rfl, rfl, rfl, rfl⟩
  | some note =>
    cases h2 : db.users.find? (fun u => u.id == uid) with
    | none => exact ⟨rfl, rfl, rfl, rfl⟩
    | some target =>
      cases h3 : db.shares.find? (fun s => s.note_id == nid && s.user_id == uid) with
      | some ex => exact ⟨rfl, rfl, rfl, rfl⟩
      | none => exact ⟨rfl, rfl, rfl, rfl⟩

/-- A key lookup ignores entries removed for a different key. -/
theorem find?_filter_ne_key (k k2 : RKey) (r : Redis) (hne : k ≠ k2) :
    (r.filter (fun p => p.1 != k2)).find? (fun p => p.1 == k) =
      r.find? (fun p => p.1 == k) := by
  induction r with
  | nil => rfl
  | cons q rest ih =>
    by_cases hq : q.1 = k2
    · have hqk : q.1 ≠ k := fun h => hne (h ▸ hq)
      rw [List.filter_cons_of_neg (by simp [hq]), ih,
          List.find?_cons_of_neg _ (by simp [hqk])]
    · rw [List.filter_cons_of_pos (by simp [hq])]
      by_cases hqk : q.1 = k
      · rw [List.find?_cons_of_pos _ (by simp [hqk]),
            List.find?_cons_of_pos _ (by simp [hqk])]
      · rw [List.find?_cons_of_neg _ (by simp [hqk]),
            List.find?_cons_of_neg _ (by simp [hqk])]
        exact ih

/-- `redis.get` after `redis.delete`: the deleted key reads back nothing,
other keys are untouched. -/
theorem redisGet_del (k k2 : RKey) (r : Redis) :
    redisGet k (redisDel k2 r) = if k = k2 then none else redisGet k r := by
  by_cases h : k = k2
  · subst h
    rw [if_pos rfl]
    unfold redisGet redisDel
    rw [show (r.filter (fun p => p.1 != k)).find? (fun p => p.1 == k) = none from ?_]
    · rfl
    · rw [List.find?_eq_none]
      intro p hp
      have := (List.mem_filter.mp hp).2
      simpa using this
  · rw [if_neg h]
    unfold redisGet redisDel
    rw [find?_filter_ne_key k k2 r h]

/-- Membership in the id-deduplicated list, by id. -/
theorem mem_dedupByIdAux (l : List Note) (seen : List Nat) (i : Nat) :
    (∃ n ∈ dedupByIdAux seen l, n.id = i) ↔
      (¬ i ∈ seen ∧ ∃ n ∈ l, n.id = i) := by
  induction l generalizing seen with
  | nil => simp [dedupByIdAux]
  | cons n rest ih =>
    by_cases hseen : n.id ∈ seen
    · rw [dedupByIdAux, if_pos hseen, ih]
      constructor
      · rintro ⟨hni, m, hm, hmi⟩
        exact ⟨hni, m, List.mem_cons_of_mem _ hm, hmi⟩
      · rintro ⟨hni, m, hm, hmi⟩
        rcases List.mem_cons.mp hm with rfl | hm2
        · exact absurd (hmi ▸ hseen) hni
        · exact ⟨hni, m, hm2, hmi⟩
    · rw [dedupByIdAux, if_neg hseen]
      constructor
      · rintro ⟨m, hm, hmi⟩
        rcases List.mem_cons.mp hm with rfl | hm2
        · exact ⟨hmi ▸ hseen, m, List.mem_cons_self _ _, hmi⟩
        · obtain ⟨hni, m2, hm3, hm4⟩ := (ih (n.id :: seen)).mp ⟨m, hm2, hmi⟩
          exact ⟨fun hc => hni (List.mem_cons_of_mem _ hc),
                 m2, List.mem_cons_of_mem _ hm3, hm4⟩
      · rintro ⟨hni, m, hm, hmi⟩
        rcases List.mem_cons.mp hm with rfl | hm2
        · exact ⟨m, List.mem_cons_self _ _, hmi⟩
        · by_cases hni2 : i = n.id
          · exact ⟨n, List.mem_cons_self _ _, hni2.symm⟩
          · obtain ⟨m2, hm3, hm4⟩ := (ih (n.id :: seen)).mpr
              ⟨by simp [hni, hni2], m, hm2, hmi⟩
            exact ⟨m2, List.mem_cons_of_mem _ hm3, hm4⟩

/-- Under the pair-uniqueness invariant an existing pair is counted exactly
once. -/
theorem countP_pair_eq_one (l : List NoteShare) (nid uid : Nat)
    (hinv : l.Pairwise (fun a b => ¬(a.note_id = b.note_id ∧ a.user_id = b.user_id)))
    (hex : ∃ s ∈ l, s.note_id = nid ∧ s.user_id = uid) :
    l.countP (fun s => s.note_id == nid && s.user_id == uid) = 1 := by
  induction l with
  | nil => simp at hex
  | cons a rest ih =>
    rw [List.pairwise_cons] at hinv
    by_cases ha : a.note_id = nid ∧ a.user_id = uid
    · rw [List.countP_cons_of_pos _ _ (by simp [ha.1, ha.2])]
      rw [show rest.countP (fun s => s.note_id == nid && s.user_id == uid) = 0 from ?_]
      · rw [List.countP_eq_zero]
        intro b hb
        simp only [Bool.and_eq_true, beq_iff_eq, not_and]
        intro hb1 hb2
        exact hinv.1 b hb ⟨ha.1.trans hb1.symm, ha.2.trans hb2.symm⟩
    · rw [List.countP_cons_of_neg _ _ (by simp; intro h1 h2; exact ha ⟨h1, h2⟩)]
      refine ih hinv.2 ?_
      obtain ⟨s, hs, hs2⟩ := hex
      rcases List.mem_cons.mp hs with rfl | hs3
      · exact absurd hs2 ha
      · exact ⟨s, hs3, hs2⟩

/-- Two stored notes with the same primary key are the same row. -/
theorem note_id_inj (db : DB) (hids : NoteIdsUnique db) {m n : Note}
    (hm : m ∈ db.notes) (hn : n ∈ db.notes) (h : m.id = n.id) : m = n :=
  List.inj_on_of_nodup_map hids hm hn h

/-- `get_note` succeeds with the note's data exactly when the caller owns
the note or holds a share on it; otherwise it is a 404. -/
theorem get_note_spec (db : DB) (U : User) (N : Note)
    (hN : N ∈ db.notes) (hids : NoteIdsUnique db) :
    (get_note N.id U db).1 =
      if canRead U N db then Except.ok (mkNoteResponse N db)
      else Except.error Err.notFound := by
  by_cases hown : N.owner_id = U.id
  · have h1 : db.notes.find? (fun n => n.id == N.id && n.owner_id == U.id) = some N := by
      rw [note_find?_eq db.notes N _ hN hids]
      simp [hown]
    rw [if_pos (show canRead U N db from Or.inl hown)]
    simp [get_note, h1]
  · have h1 : db.notes.find? (fun n => n.id == N.id && n.owner_id == U.id) = none := by
      rw [note_find?_eq db.notes N _ hN hids]
      simp [hown]
    by_cases hsh : ∃ s ∈ db.shares, s.note_id = N.id ∧ s.user_id = U.id
    · have h2 : db.notes.find? (fun n => n.id == N.id &&
          db.shares.any (fun s => s.note_id == n.id && s.user_id == U.id)) = some N := by
        rw [note_find?_eq db.notes N _ hN hids]
        rw [if_pos]
        rw [List.any_eq_true]
        obtain ⟨s, hs, h3, h4⟩ := hsh
        exact ⟨s, hs, by simp [h3, h4]⟩
      rw [if_pos (show canRead U N db from Or.inr hsh)]
      simp [get_note, h1, h2]
    · have h2 : db.notes.find? (fun n => n.id == N.id &&
          db.shares.any (fun s => s.note_id == n.id && s.user_id == U.id)) = none := by
        rw [note_find?_eq db.notes N _ hN hids]
        rw [if_neg]
        rw [List.any_eq_true]
        intro ⟨s, hs, hp⟩
        exact hsh ⟨s, hs, by simpa using hp⟩
      rw [if_neg (show ¬ canRead U N db from by rintro (h | h); exacts [hown h, hsh h])]
      simp [get_note, h1, h2]

/-- Membership in the `GET /notes/` listing (no filters, first page, page
size at least both partial result sizes) is exactly readability. -/
theorem get_notes_mem (db : DB) (U : User) (N : Note) (limit : Nat)
    (hN : N ∈ db.notes) (hids : NoteIdsUnique db)
    (hl1 : (db.notes.filter (fun n => n.owner_id == U.id)).length ≤ limit)
    (hl2 : (db.notes.filter (fun n =>
        db.shares.any (fun s => s.note_id == n.id && s.user_id == U.id))).length ≤ limit) :
    (∃ r ∈ (get_notes 0 limit none none U db).1, r.id = N.id) ↔ canRead U N db := by
  have happ : ∀ q : List Note, applyFilters none none db q = q := fun q => rfl
  simp only [get_notes, happ, List.drop_zero, List.take_of_length_le hl1,
    List.take_of_length_le hl2, dedupById]
  constructor
  · rintro ⟨r, hr, hri⟩
    obtain ⟨n, hn, rfl⟩ := List.mem_map.mp hr
    obtain ⟨-, m, hm, hmi⟩ := (mem_dedupByIdAux _ [] N.id).mp
      ⟨n, hn, by simpa [mkNoteResponse] using hri⟩
    have hmdb : m ∈ db.notes := by
      rcases List.mem_append.mp hm with h | h
      · exact (List.mem_filter.mp h).1
      · exact (List.mem_filter.mp h).1
    have : m = N := note_id_inj db hids hmdb hN hmi
    subst this
    rcases List.mem_append.mp hm with h | h
    · exact Or.inl (by simpa using (List.mem_filter.mp h).2)
    · refine Or.inr ?_
      have := (List.mem_filter.mp h).2
      rw [List.any_eq_true] at this
      obtain ⟨s, hs, hp⟩ := this
      exact ⟨s, hs, by simpa using hp⟩
  · intro hcan
    have hNin : N ∈ db.notes.filter (fun n => n.owner_id == U.id) ++
        db.notes.filter (fun n =>
          db.shares.any (fun s => s.note_id == n.id && s.user_id == U.id)) := by
      rcases hcan with hown | ⟨s, hs, h3, h4⟩
      · exact List.mem_append.mpr (Or.inl (List.mem_filter.mpr ⟨hN, by simp [hown]⟩))
      · refine List.mem_append.mpr (Or.inr (List.mem_filter.mpr ⟨hN, ?_⟩))
        rw [List.any_eq_true]
        exact ⟨s, hs, by simp [h3, h4]⟩
    obtain ⟨m, hm, hmi⟩ := (mem_dedupByIdAux _ [] N.id).mpr
      ⟨by simp, N, hNin, rfl⟩
    exact ⟨mkNoteResponse m db, List.mem_map_of_mem _ hm, hmi⟩

/-- `update_note` succeeds for the owner and is a 403 for anybody else. -/
theorem update_note_cases (db : DB) (U : User) (N : Note) (upd : NoteUpdate)
    (hN : N ∈ db.notes) (hids : NoteIdsUnique db) :
    (N.owner_id = U.id → exceptOk (update_note N.id upd U db).1 = true) ∧
    (N.owner_id ≠ U.id →
      update_note N.id upd U db = (Except.error Err.forbidden, db)) := by
  constructor
  · intro hown
    have h1 : db.notes.find? (fun n => n.id == N.id && n.owner_id == U.id) = some N := by
      rw [note_find?_eq db.notes N _ hN hids]
      simp [hown]
    simp [update_note, h1, exceptOk]
  · intro hown
    have h1 : db.notes.find? (fun n => n.id == N.id && n.owner_id == U.id) = none := by
      rw [note_find?_eq db.notes N _ hN hids]
      simp [hown]
    simp [update_note, h1]

/-- `delete_note`: for the owner it removes the note, its share rows and its
tag associations; for anybody else it is a 404 that changes nothing. -/
theorem delete_note_cases (db : DB) (U : User) (N : Note)
    (hN : N ∈ db.notes) (hids : NoteIdsUnique db) :
    (N.owner_id = U.id →
      delete_note N.id U db =
        (Except.ok "Nota eliminata con successo",
         { db with
             notes := db.notes.filter (fun m => m.id != N.id)
           , shares := db.shares.filter (fun s => s.note_id != N.id)
           , note_tags := db.note_tags.filter (fun p => p.1 != N.id) })) ∧
    (N.owner_id ≠ U.id →
      delete_note N.id U db = (Except.error Err.notFound, db)) := by
  constructor
  · intro hown
    have h1 : db.notes.find? (fun n => n.id == N.id && n.owner_id == U.id) = some N := by
      rw [note_find?_eq db.notes N _ hN hids]
      simp [hown]
    simp [delete_note, h1]
  · intro hown
    have h1 : db.notes.find? (fun n => n.id == N.id && n.owner_id == U.id) = none := by
      rw [note_find?_eq db.notes N _ hN hids]
      simp [hown]
    simp [delete_note, h1]

/-- `share_note` outcome: a 404 for a non-owner; for the owner, a 404 when
the target user does not exist, success otherwise. -/
theorem share_note_cases (db : DB) (U : User) (N : Note) (uid : Nat)
    (hN : N ∈ db.notes) (hids : NoteIdsUnique db) :
    (N.owner_id ≠ U.id →
      share_note N.id uid U db = (Except.error Err.notFound, db)) ∧
    (N.owner_id = U.id → ¬(∃ u ∈ db.users, u.id = uid) →
      share_note N.id uid U db = (Except.error Err.notFound, db)) ∧
    (N.owner_id = U.id → (∃ u ∈ db.users, u.id = uid) →
      exceptOk (share_note N.id uid U db).1 = true) := by
  refine ⟨?_, ?_, ?_⟩
  · intro hown
    have h1 : db.notes.find? (fun n => n.id == N.id && n.owner_id == U.id) = none := by
      rw [note_find?_eq db.notes N _ hN hids]
      simp [hown]
    simp [share_note, h1]
  · intro hown huser
    have h1 : db.notes.find? (fun n => n.id == N.id && n.owner_id == U.id) = some N := by
      rw [note_find?_eq db.notes N _ hN hids]
      simp [hown]
    have h2 : db.users.find? (fun u => u.id == uid) = none := by
      rw [List.find?_eq_none]
      intro u hu
      simp only [beq_iff_eq]
      exact fun h => huser ⟨u, hu, h⟩
    simp [share_note, h1, h2]
  · intro hown huser
    have h1 : db.notes.find? (fun n => n.id == N.id && n.owner_id == U.id) = some N := by
      rw [note_find?_eq db.notes N _ hN hids]
      simp [hown]
    obtain ⟨u, hu, hui⟩ := huser
    have h2 : (db.users.find? (fun x => x.id == uid)).isSome := by
      rw [List.find?_isSome]
      exact ⟨u, hu, by simp [hui]⟩
    obtain ⟨u2, h2⟩ := Option.isSome_iff_exists.mp h2
    cases h3 : db.shares.find? (fun s => s.note_id == N.id && s.user_id == uid) with
    | some ex => simp [share_note, h1, h2, h3, exceptOk]
    | none => simp [share_note, h1, h2, h3, exceptOk]

/-- `unshare_note` outcome: a 404 for a non-owner; for the owner, success
exactly when a share row exists for the pair, in which case that row is
removed. -/
theorem unshare_note_cases (db : DB) (U : User) (N : Note) (uid : Nat)
    (hN : N ∈ db.notes) (hids : NoteIdsUnique db) :
    (N.owner_id ≠ U.id →
      unshare_note N.id uid U db = (Except.error Err.notFound, db)) ∧
    (N.owner_id = U.id → ¬(∃ s ∈ db.shares, s.note_id = N.id ∧ s.user_id = uid) →
      unshare_note N.id uid U db = (Except.error Err.notFound, db)) ∧
    (N.owner_id = U.id → (∃ s ∈ db.shares, s.note_id = N.id ∧ s.user_id = uid) →
      exceptOk (unshare_note N.id uid U db).1 = true) := by
  refine ⟨?_, ?_, ?_⟩
  · intro hown
    have h1 : db.notes.find? (fun n => n.id == N.id && n.owner_id == U.id) = none := by
      rw [note_find?_eq db.notes N _ hN hids]
      simp [hown]
    simp [unshare_note, h1]
  · intro hown hsh
    have h1 : db.notes.find? (fun n => n.id == N.id && n.owner_id == U.id) = some N := by
      rw [note_find?_eq db.notes N _ hN hids]
      simp [hown]
    have h2 : db.shares.find? (fun s => s.note_id == N.id && s.user_id == uid) = none := by
      rw [List.find?_eq_none]
      intro s hs
      simp only [Bool.and_eq_true, beq_iff_eq, not_and]
      exact fun ha hb => absurd ⟨s, hs, ha, hb⟩ hsh
    simp [unshare_note, h1, h2]
  · intro hown hsh
    have h1 : db.notes.find? (fun n => n.id == N.id && n.owner_id == U.id) = some N := by
      rw [note_find?_eq db.notes N _ hN hids]
      simp [hown]
    have h2 : (db.shares.find? (fun s => s.note_id == N.id && s.user_id == uid)).isSome := by
      rw [List.find?_isSome]
      obtain ⟨s, hs, ha, hb⟩ := hsh
      exact ⟨s, hs, by simp [ha, hb]⟩
    obtain ⟨s2, h2⟩ := Option.isSome_iff_exists.mp h2
    simp [unshare_note, h1, h2, exceptOk]

/-- `get_note` never changes the state. -/
theorem get_note_state (nid : Nat) (U : User) (db : DB) : (get_note nid U db).2 = db := by
  unfold get_note
  cases h1 : db.notes.find? (fun n => n.id == nid && n.owner_id == U.id) with
  | some note => rfl
  | none =>
    cases h2 : db.notes.find? (fun n => n.id == nid &&
        db.shares.any (fun s => s.note_id == n.id && s.user_id == U.id)) with
    | some note => rfl
    | none => rfl

/-- An erroring `update_note` changes nothing. -/
theorem update_note_state_err (nid : Nat) (upd : NoteUpdate) (U : User) (db : DB) (e : Err) :
    (update_note nid upd U db).1 = Except.error e → (update_note nid upd U db).2 = db := by
  unfold update_note
  cases h1 : db.notes.find? (fun n => n.id == nid && n.owner_id == U.id) with
  | none => intro _; rfl
  | some note => intro h; simp at h

/-- An erroring `delete_note` changes nothing. -/
theorem delete_note_state_err (nid : Nat) (U : User) (db : DB) (e : Err) :
    (delete_note nid U db).1 = Except.error e → (delete_note nid U db).2 = db := by
  unfold delete_note
  cases h1 : db.notes.find? (fun n => n.id == nid && n.owner_id == U.id) with
  | none => intro _; rfl
  | some note => intro h; simp at h

/-- An erroring `share_note` changes nothing. -/
theorem share_note_state_err (nid uid : Nat) (U : User) (db : DB) (e : Err) :
    (share_note nid uid U db).1 = Except.error e → (share_note nid uid U db).2 = db := by
  unfold share_note
  cases h1 : db.notes.find? (fun n => n.id == nid && n.owner_id == U.id) with
  | none => intro _; rfl
  | some note =>
    cases h2 : db.users.find? (fun u => u.id == uid) with
    | none => intro _; rfl
    | some target =>
      cases h3 : db.shares.find? (fun s => s.note_id == nid && s.user_id == uid) with
      | some ex => intro h; simp at h
      | none => intro h; simp at h

/-- An erroring `unshare_note` changes nothing. -/
theorem unshare_note_state_err (nid uid : Nat) (U : User) (db : DB) (e : Err) :
    (unshare_note nid uid U db).1 = Except.error e → (unshare_note nid uid U db).2 = db := by
  unfold unshare_note
  cases h1 : db.notes.find? (fun n => n.id == nid && n.owner_id == U.id) with
  | none => intro _; rfl
  | some note =>
    cases h2 : db.shares.find? (fun s => s.note_id == nid && s.user_id == uid) with
    | none => intro _; rfl
    | some sh => intro h; simp at h

/-- `create_note` does not touch the share table. -/
theorem create_note_shares (t : String) (c : Option String) (tn : List String)
    (cu : User) (db : DB) : (create_note t c tn cu db).2.shares = db.shares := by
  obtain ⟨new, heq, -⟩ := goc_state tn db
  simp [create_note, heq]

/-- `update_note` does not touch the share table. -/
theorem update_note_shares (nid : Nat) (upd : NoteUpdate) (cu : User) (db : DB) :
    (update_note nid upd cu db).2.shares = db.shares := by
  unfold update_note
  cases h1 : db.notes.find? (fun n => n.id == nid && n.owner_id == cu.id) with
  | none => rfl
  | some note =>
    cases ht : upd.tags with
    | none => simp
    | some tn =>
      obtain ⟨new, heq, -⟩ := goc_state tn db
      simp [heq]

/-! ## Claim theorems -/

/-- Claim C1: for every user U and note N, a read of N by U — get by id, or
inclusion in the own+shared listing (unfiltered, first page, page size
covering both partial results) — succeeds and returns the note iff U owns N
or a NoteShare row (N, U) exists; otherwise the read is a 404 not-found. -/
theorem read_access_iff (db : DB) (U : User) (N : Note) (limit : Nat)
    (hN : N ∈ db.notes) (hids : NoteIdsUnique db)
    (hl1 : (db.notes.filter (fun n => n.owner_id == U.id)).length ≤ limit)
    (hl2 : (db.notes.filter (fun n =>
        db.shares.any (fun s => s.note_id == n.id && s.user_id == U.id))).length ≤ limit) :
    ((∃ r, (get_note N.id U db).1 = Except.ok r ∧ r.id = N.id) ↔ canRead U N db) ∧
    ((get_note N.id U db).1 = Except.error Err.notFound ↔ ¬ canRead U N db) ∧
    ((∃ r ∈ (get_notes 0 limit none none U db).1, r.id = N.id) ↔ canRead U N db) := by
  have hs := get_note_spec db U N hN hids
  refine ⟨⟨?_, ?_⟩, ⟨?_, ?_⟩, get_notes_mem db U N limit hN hids hl1 hl2⟩
  · rintro ⟨r, hr, -⟩
    by_contra hc
    rw [if_neg hc] at hs
    rw [hs] at hr
    simp at hr
  · intro hc
    rw [if_pos hc] at hs
    exact ⟨mkNoteResponse N db, hs, rfl⟩
  · intro h hc
    rw [if_pos hc] at hs
    rw [hs] at h
    simp at h
  · intro hc
    rw [if_neg hc] at hs
    exact hs

/-- Concrete instantiation of the read-access claim at exDB1 with reader
bob. -/
theorem read_access_iff_witness :
    ((∃ r, (get_note 10 exBob exDB1).1 = Except.ok r ∧ r.id = 10) ↔
        canRead exBob exNote10 exDB1) ∧
    ((get_note 10 exBob exDB1).1 = Except.error Err.notFound ↔
        ¬ canRead exBob exNote10 exDB1) ∧
    ((∃ r ∈ (get_notes 0 100 none none exBob exDB1).1, r.id = 10) ↔
        canRead exBob exNote10 exDB1) :=
  read_access_iff exDB1 exBob exNote10 100 (by decide) (by decide) (by decide)
    (by decide)

/-- Claim C4: in every state satisfying the at-most-one-share-row-per-pair
invariant, each operation — share, unshare, create, update, delete —
preserves the invariant. -/
theorem share_pair_unique_preserved (db : DB) (hinv : SharePairUnique db) :
    (∀ nid uid cu, SharePairUnique (share_note nid uid cu db).2) ∧
    (∀ nid uid cu, SharePairUnique (unshare_note nid uid cu db).2) ∧
    (∀ t c tn cu, SharePairUnique (create_note t c tn cu db).2) ∧
    (∀ nid upd cu, SharePairUnique (update_note nid upd cu db).2) ∧
    (∀ nid cu, SharePairUnique (delete_note nid cu db).2) := by
  refine ⟨?_, ?_, ?_, ?_, ?_⟩
  · intro nid uid cu
    rcases share_note_shares_cases nid uid cu db with h | ⟨h, hnone⟩
    · unfold SharePairUnique
      rw [h]
      exact hinv
    · unfold SharePairUnique
      rw [h, List.pairwise_append]
      refine ⟨hinv, by simp, ?_⟩
      intro a ha b hb
      rw [List.mem_singleton] at hb
      subst hb
      rw [List.find?_eq_none] at hnone
      have h2 := hnone a ha
      simp only [Bool.and_eq_true, beq_iff_eq, not_and] at h2
      rintro ⟨hx, hy⟩
      exact h2 hx hy
  · intro nid uid cu
    unfold unshare_note
    cases h1 : db.notes.find? (fun n => n.id == nid && n.owner_id == cu.id) with
    | none => exact hinv
    | some note =>
      cases h2 : db.shares.find? (fun s => s.note_id == nid && s.user_id == uid) with
      | none => exact hinv
      | some sh => exact hinv.sublist (List.filter_sublist _)
  · intro t c tn cu
    unfold SharePairUnique
    rw [create_note_shares]
    exact hinv
  · intro nid upd cu
    unfold SharePairUnique
    rw [update_note_shares]
    exact hinv
  · intro nid cu
    unfold delete_note
    cases h1 : db.notes.find? (fun n => n.id == nid && n.owner_id == cu.id) with
    | none => exact hinv
    | some note => exact hinv.sublist (List.filter_sublist _)

/-- Concrete instantiation of the invariant preservation: sharing note 10
with bob from exDBnoshare keeps pair uniqueness. -/
theorem share_pair_unique_preserved_witness :
    SharePairUnique (share_note 10 2 exAlice exDBnoshare).2 :=
  (share_pair_unique_preserved exDBnoshare (by decide)).1 10 2 exAlice

/-- Claim C9: whenever an operation on notes errors (not-found or
forbidden), the stored state is exactly what it was before the request — no
partial mutation happens on any error path. -/
theorem error_paths_no_mutation (db : DB) (nid uid : Nat) (upd : NoteUpdate)
    (U : User) (e : Err) :
    ((get_note nid U db).1 = Except.error e → (get_note nid U db).2 = db) ∧
    ((update_note nid upd U db).1 = Except.error e → (update_note nid upd U db).2 = db) ∧
    ((delete_note nid U db).1 = Except.error e → (delete_note nid U db).2 = db) ∧
    ((share_note nid uid U db).1 = Except.error e → (share_note nid uid U db).2 = db) ∧
    ((unshare_note nid uid U db).1 = Except.error e → (unshare_note nid uid U db).2 = db) :=
  ⟨fun _ => get_note_state nid U db,
   update_note_state_err nid upd U db e,
   delete_note_state_err nid U db e,
   share_note_state_err nid uid U db e,
   unshare_note_state_err nid uid U db e⟩

/-- Concrete instantiation of the no-mutation claim: bob's forbidden update
and not-found delete of note 10 leave exDB1 untouched. -/
theorem error_paths_no_mutation_witness :
    (update_note 10 { title := none, content := none, tags := none } exBob exDB1).2 = exDB1 ∧
    (delete_note 10 exBob exDB1).2 = exDB1 :=
  ⟨(error_paths_no_mutation exDB1 10 2
      { title := none, content := none, tags := none } exBob Err.forbidden).2.1 rfl,
   (error_paths_no_mutation exDB1 10 2
      { title := none, content := none, tags := none } exBob Err.notFound).2.2.1 rfl⟩

/-- Claim C8: a successful delete by the owner removes the note, every
NoteShare row referencing it and its note_tags association rows, while the
tag rows and every other table stay exactly as they were. -/
theorem delete_note_frame (db : DB) (U : User) (N : Note)
    (hN : N ∈ db.notes) (hown : N.owner_id = U.id) (hids : NoteIdsUnique db) :
    (delete_note N.id U db).1 = Except.ok "Nota eliminata con successo" ∧
    (¬ ∃ m ∈ (delete_note N.id U db).2.notes, m.id = N.id) ∧
    (∀ m, m ∈ (delete_note N.id U db).2.notes ↔ (m ∈ db.notes ∧ m.id ≠ N.id)) ∧
    (∀ s, s ∈ (delete_note N.id U db).2.shares ↔ (s ∈ db.shares ∧ s.note_id ≠ N.id)) ∧
    (∀ p, p ∈ (delete_note N.id U db).2.note_tags ↔ (p ∈ db.note_tags ∧ p.1 ≠ N.id)) ∧
    (delete_note N.id U db).2.tags = db.tags ∧
    (delete_note N.id U db).2.users = db.users := by
  obtain ⟨hok, -⟩ := delete_note_cases db U N hN hids
  rw [hok hown]
  refine ⟨rfl, ?_, ?_, ?_, ?_, rfl, rfl⟩
  · rintro ⟨m, hm, hmi⟩
    have h2 := (List.mem_filter.mp hm).2
    simp [hmi] at h2
  · intro m
    rw [List.mem_filter]
    simp
  · intro sh
    rw [List.mem_filter]
    simp
  · intro p
    rw [List.mem_filter]
    simp

/-- Concrete instantiation of the delete-cascade claim: alice deletes note
10 of exDB1; the share row disappears, users stay. -/
theorem delete_note_frame_witness :
    (delete_note 10 exAlice exDB1).1 = Except.ok "Nota eliminata con successo" ∧
    (delete_note 10 exAlice exDB1).2.tags = exDB1.tags ∧
    (delete_note 10 exAlice exDB1).2.users = exDB1.users ∧
    ¬ ({ id := 100, note_id := 10, user_id := 2, permission := "read" } : NoteShare) ∈
        (delete_note 10 exAlice exDB1).2.shares := by
  have h := delete_note_frame exDB1 exAlice exNote10 (by decide) (by decide) (by decide)
  refine ⟨h.1, h.2.2.2.2.2.1, h.2.2.2.2.2.2, ?_⟩
  intro hmem
  have h2 := (h.2.2.2.1 _).mp hmem
  exact h2.2 rfl

/-- Claim C7: after logout both of the user's cached tokens are removed, so
a refresh presenting the user's old refresh token fails with a 401
authentication error. -/
theorem logout_invalidates_refresh (r : Redis) (users : List User) (U : User)
    (tok : Token)
    (hfind : users.find? (fun u => u.username == tok.sub) = some U) :
    redisGet (RKey.access U.id) (logout U r) = none ∧
    redisGet (RKey.refresh U.id) (logout U r) = none ∧
    (refresh_token tok users (logout U r)).1 = Except.error Err.unauthorized := by
  have hacc : redisGet (RKey.access U.id) (logout U r) = none := by
    unfold logout
    rw [redisGet_del, if_neg (by simp), redisGet_del, if_pos rfl]
  have href : redisGet (RKey.refresh U.id) (logout U r) = none := by
    unfold logout
    rw [redisGet_del, if_pos rfl]
  refine ⟨hacc, href, ?_⟩
  by_cases hk : tok.kind = "refresh"
  · simp only [refresh_token, verify_token, hk, beq_self_eq_true, if_true, hfind, href]
  · simp only [refresh_token, verify_token]
    rw [if_neg (by simp [hk])]

/-- Concrete instantiation of the logout claim: alice logs out and her old
refresh token is rejected. -/
theorem logout_invalidates_refresh_witness :
    redisGet (RKey.access 1) (logout exAlice exRedis) = none ∧
    redisGet (RKey.refresh 1) (logout exAlice exRedis) = none ∧
    (refresh_token { sub := "alice", kind := "refresh" } [exAlice]
        (logout exAlice exRedis)).1 = Except.error Err.unauthorized :=
  logout_invalidates_refresh exRedis [exAlice] exAlice
    { sub := "alice", kind := "refresh" } (by decide)

/-- Claim C10: the share endpoint does not stop the owner sharing a note
with themselves — a NoteShare row for the owner is then created — yet the
shared_with username list never contains the owner's username, because the
query always excludes the owner's user id. -/
theorem owner_self_share_hidden (db : DB) (N : Note) (cu : User) (nid : Nat)
    (u : User) (hN : N ∈ db.notes) (hids : NoteIdsUnique db)
    (hown : N.owner_id = cu.id) (hcu : cu ∈ db.users)
    (hnopair : ¬ ∃ s ∈ db.shares, s.note_id = N.id ∧ s.user_id = cu.id)
    (hu : u ∈ db.users)
    (hinj : ∀ v ∈ db.users, v.username = u.username → v.id = u.id) :
    (∃ s ∈ (share_note N.id cu.id cu db).2.shares,
        s.note_id = N.id ∧ s.user_id = cu.id) ∧
    ¬ u.username ∈ get_shared_with_usernames nid u.id db := by
  constructor
  · have h1 : db.notes.find? (fun n => n.id == N.id && n.owner_id == cu.id) = some N := by
      rw [note_find?_eq db.notes N _ hN hids]
      simp [hown]
    have h2 : (db.users.find? (fun x => x.id == cu.id)).isSome := by
      rw [List.find?_isSome]
      exact ⟨cu, hcu, by simp⟩
    obtain ⟨u2, h2⟩ := Option.isSome_iff_exists.mp h2
    have h3 : db.shares.find? (fun s => s.note_id == N.id && s.user_id == cu.id) = none := by
      rw [List.find?_eq_none]
      intro sh hs
      simp only [Bool.and_eq_true, beq_iff_eq, not_and]
      exact fun ha hb => absurd ⟨sh, hs, ha, hb⟩ hnopair
    refine ⟨{ id := db.nextId, note_id := N.id, user_id := cu.id, permission := "read" },
      ?_, rfl, rfl⟩
    simp [share_note, h1, h2, h3]
  · intro hmem
    unfold get_shared_with_usernames at hmem
    obtain ⟨sh, hs, hval⟩ := List.mem_filterMap.mp hmem
    cases hv : db.users.find? (fun x => x.id == sh.user_id) with
    | none =>
      rw [hv] at hval
      simp at hval
    | some v =>
      rw [hv] at hval
      by_cases hvu : v.id = u.id
      · simp [hvu] at hval
      · simp [hvu] at hval
        have hvuser : v ∈ db.users := List.mem_of_find?_eq_some hv
        exact hvu (hinj v hvuser hval)

/-- Concrete instantiation of the self-share claim: alice shares note 10 of
exDBnoshare with herself, and "alice" is absent from the resulting
shared_with list. -/
theorem owner_self_share_hidden_witness :
    (∃ s ∈ (share_note 10 1 exAlice exDBnoshare).2.shares,
        s.note_id = 10 ∧ s.user_id = 1) ∧
    ¬ "alice" ∈ get_shared_with_usernames 10 1 exDBnoshare :=
  owner_self_share_hidden exDBnoshare exNote10 exAlice 10 exAlice (by decide)
    (by decide) (by decide) (by decide) (by decide) (by decide) (by decide)

/-- Claim C6: tag resolution trims and lowercases every input name, skips
names that are empty after trimming, reuses existing rows (only names
absent from the table are appended as new rows), and is case-insensitive
and idempotent; resolving ["Work","work"," WORK "] yields the single tag
"work", and resolving the same names twice yields the same tag rows and
the same state. -/
theorem tag_resolution_spec :
    (∀ names db, (get_or_create_tags names db).1.map (fun t => t.name) =
        normalizedNames names) ∧
    (∀ names db, ∃ new, (get_or_create_tags names db).2.tags = db.tags ++ new ∧
        ∀ t ∈ new, ¬ t.name ∈ db.tags.map (fun x => x.name)) ∧
    (∀ names db, get_or_create_tags names ((get_or_create_tags names db).2) =
        get_or_create_tags names db) ∧
    ((get_or_create_tags ["Work", "work", " WORK "] emptyDB).1.map
        (fun t => t.name) = ["work", "work", "work"] ∧
      (get_or_create_tags ["Work", "work", " WORK "] emptyDB).1.map
        (fun t => t.id) = [0, 0, 0] ∧
      (get_or_create_tags ["Work", "work", " WORK "] emptyDB).2.tags =
        [{ id := 0, name := "work" }]) := by
  refine ⟨goc_names, ?_, goc_idem, by decide, by decide, by decide⟩
  intro names db
  obtain ⟨new, heq, hfresh⟩ := goc_state names db
  exact ⟨new, by rw [heq], hfresh⟩

/-- Concrete instantiation of the tag-resolution claim: a second resolution
of ["Work","notes"] returns the same rows and state. -/
theorem tag_resolution_spec_witness :
    get_or_create_tags ["Work", "notes"]
        ((get_or_create_tags ["Work", "notes"] emptyDB).2) =
      get_or_create_tags ["Work", "notes"] emptyDB :=
  tag_resolution_spec.2.2.1 ["Work", "notes"] emptyDB

/-- Claim C2 fails as stated: the share endpoint of this revision takes no
permission argument, so a re-share cannot request a different level, and it
performs no upsert — re-sharing note 10 with bob leaves the stored state,
including the existing row's `write` permission, exactly unchanged instead
of overwriting it with the only grantable (default) permission `read`. -/
theorem reshare_upsert_counterexample :
    (share_note 10 2 exAlice exDBwrite).2 = exDBwrite ∧
    exDBwrite.shares.find? (fun s => s.note_id == 10 && s.user_id == 2) =
      some { id := 100, note_id := 10, user_id := 2, permission := "write" } ∧
    ¬ ∃ s ∈ (share_note 10 2 exAlice exDBwrite).2.shares,
        s.note_id = 10 ∧ s.user_id = 2 ∧ s.permission = "read" := by decide

/-- Claim C2 (amended): re-sharing an already-shared (note, user) pair by
the owner is a no-op reported as success: no duplicate row is created and
the stored state — including the existing row's permission — is exactly
unchanged; under the pair-uniqueness invariant exactly one row for the pair
remains afterwards. -/
theorem reshare_is_noop (db : DB) (U : User) (N : Note) (uid : Nat)
    (hN : N ∈ db.notes) (hids : NoteIdsUnique db) (hown : N.owner_id = U.id)
    (huser : ∃ u ∈ db.users, u.id = uid)
    (hex : ∃ s ∈ db.shares, s.note_id = N.id ∧ s.user_id = uid) :
    (share_note N.id uid U db).1 = Except.ok "Nota gia condivisa con utente" ∧
    (share_note N.id uid U db).2 = db ∧
    (SharePairUnique db →
      ((share_note N.id uid U db).2.shares.countP
          (fun s => s.note_id == N.id && s.user_id == uid)) = 1) := by
  have h1 : db.notes.find? (fun n => n.id == N.id && n.owner_id == U.id) = some N := by
    rw [note_find?_eq db.notes N _ hN hids]
    simp [hown]
  obtain ⟨u, hu, hui⟩ := huser
  have h2 : (db.users.find? (fun x => x.id == uid)).isSome := by
    rw [List.find?_isSome]
    exact ⟨u, hu, by simp [hui]⟩
  obtain ⟨u2, h2⟩ := Option.isSome_iff_exists.mp h2
  have h3 : (db.shares.find? (fun s => s.note_id == N.id && s.user_id == uid)).isSome := by
    rw [List.find?_isSome]
    obtain ⟨sh, hs, ha, hb⟩ := hex
    exact ⟨sh, hs, by simp [ha, hb]⟩
  obtain ⟨s2, h3⟩ := Option.isSome_iff_exists.mp h3
  have hstate : (share_note N.id uid U db).2 = db := by
    simp [share_note, h1, h2, h3]
  refine ⟨by simp [share_note, h1, h2, h3], hstate, ?_⟩
  intro hinv
  rw [hstate]
  exact countP_pair_eq_one db.shares N.id uid hinv hex

/-- Concrete instantiation of the amended re-share claim at exDBwrite. -/
theorem reshare_is_noop_witness :
    (share_note 10 2 exAlice exDBwrite).1 =
        Except.ok "Nota gia condivisa con utente" ∧
    (share_note 10 2 exAlice exDBwrite).2 = exDBwrite ∧
    (SharePairUnique exDBwrite →
      ((share_note 10 2 exAlice exDBwrite).2.shares.countP
          (fun s => s.note_id == 10 && s.user_id == 2)) = 1) :=
  reshare_is_noop exDBwrite exAlice exNote10 2 (by decide) (by decide) (by decide)
    (by decide) (by decide)

/-- Claim C3 fails as stated: a stored `write`-level share resolves to
permission `write` — at least `write` — yet the holder's update is still
403 forbidden; and a holder of only a `read` share who attempts delete
receives 404 not-found, not 403 forbidden. -/
theorem write_requires_owner_counterexample :
    (resolve_permission exBob exNote10 exDBwrite = Perm.write ∧
      (update_note 10 { title := some "x", content := none, tags := none }
          exBob exDBwrite).1 = Except.error Err.forbidden) ∧
    (resolve_permission exBob exNote11 exDBwrite = Perm.read ∧
      (delete_note 11 exBob exDBwrite).1 = Except.error Err.notFound ∧
      ¬ (delete_note 11 exBob exDBwrite).1 = Except.error Err.forbidden) := by
  refine ⟨⟨by decide, rfl⟩, by decide, rfl, ?_⟩
  intro h
  have h3 : (delete_note 11 exBob exDBwrite).1 = Except.error Err.notFound := rfl
  rw [h3] at h
  injection h with h4
  exact Err.noConfusion h4

/-- Claim C3 (amended): update succeeds iff the caller owns the note (this
revision checks ownership, not a `write` share level); delete succeeds iff
the caller owns the note; share succeeds iff the caller owns the note and
the target user exists; unshare succeeds iff the caller owns the note and a
share row for the pair exists; a caller whose resolved permission is only
`read` receives 403 forbidden from update but 404 not-found from delete. -/
theorem write_requires_owner (db : DB) (U : User) (N : Note) (upd : NoteUpdate)
    (uid : Nat) (hN : N ∈ db.notes) (hids : NoteIdsUnique db) :
    (exceptOk (update_note N.id upd U db).1 = true ↔ N.owner_id = U.id) ∧
    (exceptOk (delete_note N.id U db).1 = true ↔ N.owner_id = U.id) ∧
    (exceptOk (share_note N.id uid U db).1 = true ↔
        (N.owner_id = U.id ∧ ∃ u ∈ db.users, u.id = uid)) ∧
    (exceptOk (unshare_note N.id uid U db).1 = true ↔
        (N.owner_id = U.id ∧ ∃ s ∈ db.shares, s.note_id = N.id ∧ s.user_id = uid)) ∧
    (resolve_permission U N db = Perm.read →
        (update_note N.id upd U db).1 = Except.error Err.forbidden ∧
        (delete_note N.id U db).1 = Except.error Err.notFound) := by
  obtain ⟨hupd1, hupd2⟩ := update_note_cases db U N upd hN hids
  obtain ⟨hdel1, hdel2⟩ := delete_note_cases db U N hN hids
  obtain ⟨hsh1, hsh2, hsh3⟩ := share_note_cases db U N uid hN hids
  obtain ⟨hun1, hun2, hun3⟩ := unshare_note_cases db U N uid hN hids
  have hownread : resolve_permission U N db = Perm.read → N.owner_id ≠ U.id := by
    intro hperm h
    rw [resolve_permission, if_pos (by simp [h])] at hperm
    exact Perm.noConfusion hperm
  refine ⟨⟨?_, hupd1⟩, ⟨?_, ?_⟩, ⟨?_, fun h => hsh3 h.1 h.2⟩, ⟨?_, fun h => hun3 h.1 h.2⟩, ?_⟩
  · intro hok
    by_contra hown
    rw [hupd2 hown] at hok
    simp [exceptOk] at hok
  · intro hok
    by_contra hown
    rw [hdel2 hown] at hok
    simp [exceptOk] at hok
  · intro hown
    rw [hdel1 hown]
    rfl
  · intro hok
    by_cases hown : N.owner_id = U.id
    · refine ⟨hown, ?_⟩
      by_contra huser
      rw [hsh2 hown huser] at hok
      simp [exceptOk] at hok
    · rw [hsh1 hown] at hok
      simp [exceptOk] at hok
  · intro hok
    by_cases hown : N.owner_id = U.id
    · refine ⟨hown, ?_⟩
      by_contra hpair
      rw [hun2 hown hpair] at hok
      simp [exceptOk] at hok
    · rw [hun1 hown] at hok
      simp [exceptOk] at hok
  · intro hperm
    have hown := hownread hperm
    refine ⟨?_, ?_⟩
    · rw [hupd2 hown]
    · rw [hdel2 hown]

/-- Concrete instantiation of the amended authorization claim: bob's read
share on note 11 yields 403 on update and 404 on delete. -/
theorem write_requires_owner_witness :
    (update_note exNote11.id { title := none, content := none, tags := none }
        exBob exDBwrite).1 = Except.error Err.forbidden ∧
    (delete_note exNote11.id exBob exDBwrite).1 = Except.error Err.notFound :=
  (write_requires_owner exDBwrite exBob exNote11
    { title := none, content := none, tags := none } 2 (by decide)
    (by decide)).2.2.2.2 (by decide)

/-- Claim C5 fails as stated: the share endpoint takes no permission
argument, so a `write` or `admin` grant can never be requested — from any
state whose share rows all carry `read`, every share row after any share
call still carries `read`. -/
theorem share_permission_counterexample :
    ¬ ∃ (db : DB) (nid uid : Nat) (cu : User),
      (∀ s ∈ db.shares, s.permission = "read") ∧
      ∃ s ∈ (share_note nid uid cu db).2.shares, ¬ s.permission = "read" := by
  rintro ⟨db, nid, uid, cu, hall, s, hs, hperm⟩
  rcases share_note_shares_cases nid uid cu db with h | ⟨h, -⟩
  · rw [h] at hs
    exact hperm (hall s hs)
  · rw [h] at hs
    rcases List.mem_append.mp hs with h2 | h2
    · exact hperm (hall s h2)
    · rw [List.mem_singleton] at h2
      subst h2
      exact hperm rfl

/-- Claim C5 (amended): the share endpoint accepts no permission argument;
every row it adds carries the column-default permission `read`, and when
the owner shares with an existing user who holds no share yet, a `read` row
for the pair is created. -/
theorem share_default_read (db : DB) (U : User) (N : Note) (uid : Nat)
    (hN : N ∈ db.notes) (hids : NoteIdsUnique db) :
    (∀ s ∈ (share_note N.id uid U db).2.shares,
        s ∈ db.shares ∨ (s.note_id = N.id ∧ s.user_id = uid ∧ s.permission = "read")) ∧
    (N.owner_id = U.id → (∃ u ∈ db.users, u.id = uid) →
      (¬ ∃ s ∈ db.shares, s.note_id = N.id ∧ s.user_id = uid) →
      ∃ s ∈ (share_note N.id uid U db).2.shares,
        s.note_id = N.id ∧ s.user_id = uid ∧ s.permission = "read") := by
  constructor
  · intro s hs
    rcases share_note_shares_cases N.id uid U db with h | ⟨h, -⟩
    · rw [h] at hs
      exact Or.inl hs
    · rw [h] at hs
      rcases List.mem_append.mp hs with h2 | h2
      · exact Or.inl h2
      · rw [List.mem_singleton] at h2
        subst h2
        exact Or.inr ⟨rfl, rfl, rfl⟩
  · intro hown huser hnopair
    have h1 : db.notes.find? (fun n => n.id == N.id && n.owner_id == U.id) = some N := by
      rw [note_find?_eq db.notes N _ hN hids]
      simp [hown]
    obtain ⟨u, hu, hui⟩ := huser
    have h2 : (db.users.find? (fun x => x.id == uid)).isSome := by
      rw [List.find?_isSome]
      exact ⟨u, hu, by simp [hui]⟩
    obtain ⟨u2, h2⟩ := Option.isSome_iff_exists.mp h2
    have h3 : db.shares.find? (fun s => s.note_id == N.id && s.user_id == uid) = none := by
      rw [List.find?_eq_none]
      intro sh hs
      simp only [Bool.and_eq_true, beq_iff_eq, not_and]
      exact fun ha hb => absurd ⟨sh, hs, ha, hb⟩ hnopair
    refine ⟨{ id := db.nextId, note_id := N.id, user_id := uid, permission := "read" },
      ?_, rfl, rfl, rfl⟩
    simp [share_note, h1, h2, h3]

/-- Concrete instantiation of the amended share-default claim: alice shares
note 10 of exDBnoshare with bob and a `read` row appears. -/
theorem share_default_read_witness :
    ∃ s ∈ (share_note 10 2 exAlice exDBnoshare).2.shares,
      s.note_id = 10 ∧ s.user_id = 2 ∧ s.permission = "read" :=
  (share_default_read exDBnoshare exAlice exNote10 2 (by decide) (by decide)).2
    (by decide) (by decide) (by decide)

end SharedNotes
